import Mathlib

/-!
# Verification of the tenpy tensor-network linear-algebra core

Shallow embedding of the sparse-operator layer (`tenpy/linalg/sparse.py`),
the numpy block backend (`tenpy/linalg/backends/numpy.py`) and the backend
factory (`tenpy/linalg/backends/backend_factory.py`), together with proofs
about the specified behaviour.
-/

/-- Python exceptions that the embedded code can signal. -/
inductive PyExc where
  | linAlgError
  | notImplementedError
  | valueError
  | keyError
  | assertionError
  | attributeError
  | indexError
deriving DecidableEq, Repr

namespace NumpyBackend

/-- `NumpyBlockBackend.svd_algorithms` from `backends/numpy.py`. -/
def svd_algorithms : List String := ["gesdd", "gesvd", "robust", "robust_silent"]

/-- `_svd_gesvd` from `backends/numpy.py`: its body is `raise NotImplementedError`. -/
def svd_gesvd {M R : Type} (_a : M) : Except PyExc R := .error .notImplementedError

/-- `NumpyBlockBackend.matrix_svd` from `backends/numpy.py`.

The call `scipy.linalg.svd(a, full_matrices=False)` is an external numeric
primitive; it is passed in as the oracle `scipy_svd`, which either returns a
decomposition or signals `numpy.linalg.LinAlgError` (non-convergence). -/
def matrix_svd {M R : Type} (scipy_svd : M → Except PyExc R) (a : M)
    (algorithm : Option String) : Except PyExc R :=
  let alg := algorithm.getD "gesdd"
  if alg = "gesdd" then
    scipy_svd a
  else if alg ∈ (["robust", "robust_silent"] : List String) then
    let silent := alg = "robust_silent"
    match scipy_svd a with
    | .ok r => .ok r
    | .error .linAlgError =>
        if silent then svd_gesvd a else .error .notImplementedError
    | .error e => .error e
  else if alg = "gesvd" then
    svd_gesvd a
  else
    .error .valueError

end NumpyBackend

/-- C8: an SVD algorithm name outside the supported set signals a
configuration error (`ValueError`) without attempting any decomposition, and
`algorithm=None` runs the default driver `'gesdd'` (i.e. the plain scipy svd
call), returning its result unmodified. -/
theorem matrix_svd_unsupported_and_default {M R : Type}
    (scipy_svd : M → Except PyExc R) (a : M) (alg : String)
    (h : alg ∉ NumpyBackend.svd_algorithms) :
    NumpyBackend.matrix_svd scipy_svd a (some alg) = .error .valueError ∧
    NumpyBackend.matrix_svd scipy_svd a none = scipy_svd a := by
  constructor
  · simp only [NumpyBackend.svd_algorithms, List.mem_cons, List.mem_singleton,
      not_or] at h
    obtain ⟨h1, h2, h3, h4, -⟩ := h
    simp [NumpyBackend.matrix_svd, h1, h2, h3, h4]
  · simp [NumpyBackend.matrix_svd]

/-- Witness for C8 at a concrete input: `'lapack'` is not a supported
algorithm name, and `matrix_svd` signals `ValueError` there, while
`algorithm=None` returns the default driver's result. -/
theorem matrix_svd_unsupported_and_default_witness :
    "lapack" ∉ NumpyBackend.svd_algorithms ∧
    (NumpyBackend.matrix_svd (fun n => (.ok n : Except PyExc ℕ)) 7 (some "lapack") =
        .error .valueError ∧
      NumpyBackend.matrix_svd (fun n => (.ok n : Except PyExc ℕ)) 7 none =
        .ok 7) :=
  ⟨by decide, matrix_svd_unsupported_and_default (fun n => .ok n) 7 "lapack" (by decide)⟩

/-- C1: the "robust" SVD modes do not recover from non-convergence.  When the
default driver raises `LinAlgError`, `algorithm='robust'` raises
`NotImplementedError` in place of the intended warning, and
`algorithm='robust_silent'` reaches the fallback `_svd_gesvd`, whose body is
itself `raise NotImplementedError`; no fallback SVD is ever returned. -/
theorem matrix_svd_robust_not_implemented :
    NumpyBackend.matrix_svd (fun _ => (.error .linAlgError : Except PyExc ℕ)) 0
        (some "robust") = .error .notImplementedError ∧
    NumpyBackend.matrix_svd (fun _ => (.error .linAlgError : Except PyExc ℕ)) 0
        (some "robust_silent") = .error .notImplementedError ∧
    NumpyBackend.svd_gesvd (R := ℕ) 0 = .error .notImplementedError := by
  refine ⟨?_, ?_, rfl⟩ <;> rfl

namespace Sparse

/-- A chain of sparse-operator objects, as far as unwrapping is concerned:
a `TenpyLinearOperatorWrapper` holds a reference `original_operator` to an
inner operator (`wrap`), and everything else is a non-wrapper operator
(`base`, tagged by a number so distinct operators are distinguishable). -/
inductive OpTree where
  | base : ℕ → OpTree
  | wrap : OpTree → OpTree
deriving DecidableEq, Repr

/-- Number of wrapper layers around the innermost operator. -/
def OpTree.depth : OpTree → ℕ
  | .base _ => 0
  | .wrap t => t.depth + 1

def OpTree.isWrapper : OpTree → Bool
  | .base _ => false
  | .wrap _ => true

/-- The innermost operator of a chain. -/
def OpTree.root : OpTree → OpTree
  | .base b => .base b
  | .wrap t => t.root

/-- The `for _ in range(10000)` loop inside
`TenpyLinearOperatorWrapper.unwrapped` (`sparse.py`), started on
`parent = self.original_operator`.  Each iteration evaluates
`parent.unwrapped()`: on a non-wrapper `parent` the attribute access raises
`AttributeError`, which the loop catches and returns `parent`; on a wrapper it
recursively runs the same loop one level down (the default `recursive=True`).
After 10000 iterations the loop raises `ValueError`.  The first argument is
recursion fuel for the nested calls (Python's call stack); `none` means the
fuel was exhausted, which never happens with fuel above the chain depth. -/
def unwrapLoop : ℕ → ℕ → OpTree → Option (Except PyExc OpTree)
  | _, 0, _ => some (.error .valueError)
  | _, _+1, .base b => some (.ok (.base b))
  | 0, _+1, .wrap _ => none
  | f+1, k+1, .wrap i =>
    match unwrapLoop f 10000 i with
    | none => none
    | some (.ok p) => unwrapLoop (f+1) k p
    | some (.error .attributeError) => some (.ok (.wrap i))
    | some (.error e) => some (.error e)
termination_by f k _ => (f, k)

/-- `TenpyLinearOperatorWrapper.unwrapped` from `sparse.py`.  Calling it on a
non-wrapper raises `AttributeError`; `recursive=False` returns the direct
inner operator; `recursive=True` runs the bounded unwrapping loop. -/
def unwrapped (t : OpTree) (recursive : Bool) (fuel : ℕ) :
    Option (Except PyExc OpTree) :=
  match t with
  | .base _ => some (.error .attributeError)
  | .wrap i => if recursive then unwrapLoop fuel 10000 i else some (.ok i)

theorem OpTree.root_eq_base : ∀ t : OpTree, ∃ b, t.root = .base b
  | .base b => ⟨b, rfl⟩
  | .wrap t => root_eq_base t

theorem unwrapLoop_eq_root : ∀ (t : OpTree) (f k : ℕ), t.depth < f → 2 ≤ k →
    unwrapLoop f k t = some (.ok t.root)
  | .base b, f, k, _, hk => by
    obtain ⟨k, rfl⟩ : ∃ k', k = k' + 1 := ⟨k - 1, by omega⟩
    simp [unwrapLoop, OpTree.root]
  | .wrap i, f, k, hf, hk => by
    obtain ⟨f, rfl⟩ : ∃ f', f = f' + 1 := ⟨f - 1, by omega⟩
    obtain ⟨k, rfl⟩ : ∃ k', k = k' + 1 := ⟨k - 1, by omega⟩
    have hdi : i.depth < f := by simp [OpTree.depth] at hf; omega
    have hIH := unwrapLoop_eq_root i f 10000 hdi (by omega)
    obtain ⟨b, hb⟩ := OpTree.root_eq_base i
    obtain ⟨k, rfl⟩ : ∃ k'', k = k'' + 1 := ⟨k - 1, by omega⟩
    simp only [unwrapLoop, hIH, hb, OpTree.root]

/-- C9: for every finite chain of operator wrappers, `unwrapped(recursive=True)`
on the outermost wrapper follows the `original_operator` references and
returns the innermost operator, which is itself not a wrapper; the bounded
loop terminates without ever reaching its `ValueError` guard (any call-stack
fuel exceeding the chain depth gives this same result). -/
theorem unwrapped_returns_innermost (inner : OpTree) (fuel : ℕ)
    (h : inner.depth < fuel) :
    unwrapped (.wrap inner) true fuel = some (.ok inner.root) ∧
    inner.root.isWrapper = false := by
  obtain ⟨b, hb⟩ := OpTree.root_eq_base inner
  refine ⟨?_, by simp [hb, OpTree.isWrapper]⟩
  simp [unwrapped, unwrapLoop_eq_root inner fuel 10000 h (by omega)]

/-- Witness for C9: a two-layer chain around base operator `7`, with fuel 5,
unwraps to that base operator. -/
theorem unwrapped_returns_innermost_witness :
    (OpTree.wrap (.base 7)).depth < 5 ∧
    (unwrapped (.wrap (.wrap (.base 7))) true 5 = some (.ok (.base 7)) ∧
      (OpTree.wrap (.base 7)).root.isWrapper = false) :=
  ⟨by decide, unwrapped_returns_innermost (.wrap (.base 7)) 5 (by decide)⟩

end Sparse

namespace Sparse

/-- A leg of a tensor.  Modelled from the spec: `VectorSpace` (from
`symmetries/spaces.py`, which is not among the given sources) is an ordered
list of sectors with positive multiplicities and a duality flag. -/
structure VectorSpace where
  sectors : List (List ℤ)
  multiplicities : List ℕ
  dualFlag : Bool
deriving DecidableEq, Repr

/-- Modelled from the spec: `VectorSpace.can_contract_with` (from
`symmetries/spaces.py`, not among the given sources) "returns true iff
`other` is structurally the exact dual (same symmetry, same sectors, same
multiplicities, opposite duality flag)". -/
def VectorSpace.can_contract_with (a b : VectorSpace) : Bool :=
  a.sectors = b.sectors && a.multiplicities = b.multiplicities &&
    a.dualFlag = !b.dualFlag

/-- The data of a `Tensor` that `TensorLinearOperator.__init__` inspects:
its ordered list of legs (`tensor.num_legs` is its length). -/
structure MTensor where
  legs : List VectorSpace
deriving DecidableEq

/-- Modelled from the spec: `Tensor.get_leg_idx` (from `tensors.py`, not
among the given sources) resolves an integer leg reference, counting from
the end when negative, and signals a lookup error when out of range. -/
def get_leg_idx (num_legs : ℕ) (i : ℤ) : Except PyExc ℕ :=
  let j := if i < 0 then i + num_legs else i
  if 0 ≤ j ∧ j < num_legs then .ok j.toNat else .error .valueError

/-- `TensorLinearOperator.__init__` from `sparse.py`: rejects tensors with
more than two legs, then rejects two-leg tensors whose legs are not mutually
contractible, then resolves `which_leg` and records the other leg as the
vector shape.  The returned value is the data the constructed operator
stores: the resolved `which_leg` and the leg of the vectors it acts on. -/
def TensorLinearOperator_init (tensor : MTensor) (which_leg : ℤ) :
    Except PyExc (ℕ × VectorSpace) :=
  if tensor.legs.length > 2 then .error .valueError
  else
    match tensor.legs.get? 0, tensor.legs.get? 1 with
    | some l0, some l1 =>
      if ¬ l0.can_contract_with l1 then .error .valueError
      else
        match get_leg_idx tensor.legs.length which_leg with
        | .error e => .error e
        | .ok w =>
          match tensor.legs.get? (1 - w) with
          | some lo => .ok (w, lo)
          | none => .error .indexError
    | _, _ => .error .indexError

/-- C10: constructing a `TensorLinearOperator` from a tensor with more than
two legs raises `ValueError`, and constructing it from a two-leg tensor whose
legs are not mutually contractible raises `ValueError`; in both cases no
operator data is produced. -/
theorem tensor_linear_operator_init_validates (t : MTensor) (w : ℤ) :
    (t.legs.length > 2 → TensorLinearOperator_init t w = .error .valueError) ∧
    (∀ l0 l1, t.legs = [l0, l1] → l0.can_contract_with l1 = false →
      TensorLinearOperator_init t w = .error .valueError) := by
  constructor
  · intro h
    simp [TensorLinearOperator_init, h]
  · intro l0 l1 hlegs hc
    simp [TensorLinearOperator_init, hlegs, hc]

end Sparse

/-- A pair of legs that are not mutually contractible (same duality flag). -/
def exLegA : Sparse.VectorSpace := ⟨[[0], [1]], [1, 2], false⟩

/-- Witness for C10: a three-leg tensor and a two-leg tensor with
non-contractible legs are both rejected with `ValueError`. -/
theorem tensor_linear_operator_init_validates_witness :
    ((Sparse.MTensor.mk [exLegA, exLegA, exLegA]).legs.length > 2 ∧
      Sparse.TensorLinearOperator_init ⟨[exLegA, exLegA, exLegA]⟩ (-1) =
        .error .valueError) ∧
    (exLegA.can_contract_with exLegA = false ∧
      Sparse.TensorLinearOperator_init ⟨[exLegA, exLegA]⟩ (-1) =
        .error .valueError) :=
  ⟨⟨by decide,
      (Sparse.tensor_linear_operator_init_validates ⟨[exLegA, exLegA, exLegA]⟩ (-1)).1
        (by decide)⟩,
    ⟨by decide,
      (Sparse.tensor_linear_operator_init_validates ⟨[exLegA, exLegA]⟩ (-1)).2
        exLegA exLegA rfl (by decide)⟩⟩

namespace Sparse

/-- Modelled from the spec: vectors of a fixed `vector_shape` form an
inner-product space; a tenpy tensor of that shape is modelled by its
coefficient tuple.  `K` is the scalar field with its conjugation
(`ℂ` in the code); `Tensor.inner` (from `tensors.py`, not among the given
sources) is the sesquilinear inner product `<a|b>`, conjugate in the first
argument, as used in the bra-ket formulas of `sparse.py`. -/
def inner {n : ℕ} {K : Type} [CommRing K] [StarRing K] (a b : Fin n → K) : K :=
  ∑ i, star (a i) * b i

variable {n : ℕ} {K : Type} [CommRing K] [StarRing K]

/-- `ShiftedTenpyLinearOperator.matvec` from `sparse.py`:
`self.original_operator.matvec(vec) + self.shift * vec`. -/
def shiftedMatvec (H : (Fin n → K) → (Fin n → K)) (shift : K)
    (vec : Fin n → K) : Fin n → K :=
  H vec + shift • vec

/-- The first loop of `ProjectedTenpyLinearOperator.matvec`: forms `P vec`
and collects the coefficients `c = o.inner(res)` in iteration order. -/
def firstPass : List (Fin n → K) → (Fin n → K) → List K × (Fin n → K)
  | [], res => ([], res)
  | o :: os, res =>
    let c := inner o res
    let (cs, res') := firstPass os (res - c • o)
    (c :: cs, res')

/-- One Gram-Schmidt-style sweep `res = res - o.inner(res) * o` over a given
iteration list, as in the second loop of
`ProjectedTenpyLinearOperator.matvec`. -/
def gsPass : List (Fin n → K) → (Fin n → K) → (Fin n → K)
  | [], res => res
  | o :: os, res => gsPass os (res - inner o res • o)

/-- The penalty loop of `ProjectedTenpyLinearOperator.matvec`:
`res = res + self.penalty * c * o` over `zip(coefficients, self.ortho_vecs)`. -/
def penaltyPass (p : K) : List (K × (Fin n → K)) → (Fin n → K) → (Fin n → K)
  | [], res => res
  | (c, o) :: rest, res => penaltyPass p rest (res + (p * c) • o)

/-- `ProjectedTenpyLinearOperator.matvec` from `sparse.py`, acting with the
stored (Gram-Schmidt processed) `ortho_vecs`: project the input, apply the
original operator, project again iterating over `reversed(self.ortho_vecs)`,
then, if a penalty is given, add `penalty * c * o` for each collected
coefficient. -/
def projMatvec (H : (Fin n → K) → (Fin n → K)) (ortho_vecs : List (Fin n → K))
    (penalty : Option K) (vec : Fin n → K) : Fin n → K :=
  let (coefficients, pvec) := firstPass ortho_vecs vec
  let res := gsPass ortho_vecs.reverse (H pvec)
  match penalty with
  | none => res
  | some p => penaltyPass p (coefficients.zip ortho_vecs) res

/-- The variant of `projMatvec` whose second orthogonalization pass iterates
over `ortho_vecs` in forward order instead of the implemented reversed
order; this is the comparison operator named by the spec. -/
def projMatvecForward (H : (Fin n → K) → (Fin n → K))
    (ortho_vecs : List (Fin n → K)) (penalty : Option K) (vec : Fin n → K) :
    Fin n → K :=
  let (coefficients, pvec) := firstPass ortho_vecs vec
  let res := gsPass ortho_vecs (H pvec)
  match penalty with
  | none => res
  | some p => penaltyPass p (coefficients.zip ortho_vecs) res

theorem inner_sub_right (a x y : Fin n → K) :
    inner a (x - y) = inner a x - inner a y := by
  simp [inner, mul_sub, Finset.sum_sub_distrib]

theorem inner_add_right (a x y : Fin n → K) :
    inner a (x + y) = inner a x + inner a y := by
  simp [inner, mul_add, Finset.sum_add_distrib]

theorem inner_smul_right (a x : Fin n → K) (c : K) :
    inner a (c • x) = c * inner a x := by
  simp [inner, Finset.mul_sum]
  exact Finset.sum_congr rfl fun i _ => by ring

theorem inner_zero_right (a : Fin n → K) : inner a (0 : Fin n → K) = 0 := by
  simp [inner]

end Sparse

/-- C3: for every `ShiftedTenpyLinearOperator` wrapping `H` with scalar
`shift`, `matvec(v) = H.matvec(v) + shift * v` for every vector `v` of the
declared shape; in particular with `shift = 2` it is `H.matvec(v) + 2 * v`. -/
theorem shifted_matvec_eq {n : ℕ} {K : Type} [CommRing K] [StarRing K]
    (H : (Fin n → K) → (Fin n → K)) (shift : K) (v : Fin n → K) :
    Sparse.shiftedMatvec H shift v = H v + shift • v ∧
    Sparse.shiftedMatvec H (2 : K) v = H v + (2 : K) • v :=
  ⟨rfl, rfl⟩

namespace Sparse

variable {n : ℕ} {K : Type} [CommRing K] [StarRing K]

theorem firstPass_single (o v : Fin n → K) :
    firstPass [o] v = ([inner o v], v - inner o v • o) := rfl

/-- C2 (amended): for a `ProjectedTenpyLinearOperator` with stored
`ortho_vecs = [o]` (`o` unit-norm) and `penalty = 5`, and a linear original
operator `H` (only `H 0 = 0` is used): `matvec(o) = 5 • o`, and for every
`v` orthogonal to `o`, `matvec(v)` is the *projection* of `H.matvec(v)`
orthogonal to `o`, i.e. `H.matvec(v) - <o|H v> • o` — which equals
`H.matvec(v)` exactly when `H.matvec(v)` is itself orthogonal to `o`,
but not in general. -/
theorem projected_matvec_single (H : (Fin n → K) → (Fin n → K))
    (o v : Fin n → K) (hunit : inner o o = 1) (hH0 : H 0 = 0)
    (hperp : inner o v = 0) :
    projMatvec H [o] (some 5) o = (5 : K) • o ∧
    projMatvec H [o] (some 5) v = H v - inner o (H v) • o := by
  constructor
  · have h1 : firstPass [o] o = ([1], 0) := by
      rw [firstPass_single, hunit, one_smul, sub_self]
    simp [projMatvec, h1, gsPass, penaltyPass, hH0, inner_zero_right, hunit]
  · have h1 : firstPass [o] v = ([0], v) := by
      rw [firstPass_single, hperp, zero_smul, sub_zero]
    simp [projMatvec, h1, gsPass, penaltyPass, hperp]

end Sparse

/-- First standard basis vector of `ℤ²` viewed in the scalar ring (a unit-norm vector `o`). -/
def exO : Fin 2 → ℤ := fun i => if i = 0 then 1 else 0

/-- Second standard basis vector of `ℤ²` (orthogonal to `exO`). -/
def exV : Fin 2 → ℤ := fun i => if i = 1 then 1 else 0

/-- A linear operator on `ℤ²` exchanging the two coordinates. -/
def HSwap : (Fin 2 → ℤ) → (Fin 2 → ℤ) := fun v i => v (1 - i)

/-- Counterexample for C2 as stated: `exV` is orthogonal to the unit-norm
`exO`, yet the projected operator built from `HSwap` with
`ortho_vecs = [exO]`, `penalty = 5` does *not* leave the action on `exV`
unchanged: `matvec(exV) = 0 ≠ HSwap exV` (the second projection pass removes
the component of `H v` along `o`). -/
theorem projected_matvec_changes_orthogonal_complement :
    Sparse.inner exO exV = 0 ∧
    Sparse.projMatvec HSwap [exO] (some 5) exV ≠ HSwap exV :=
  ⟨by decide, fun h => absurd (congrFun h 0) (by decide)⟩

/-- Witness for C2 (amended) at a concrete input: `exO` is unit-norm,
`HSwap 0 = 0` and `exV ⊥ exO`, so the amended conclusions hold there. -/
theorem projected_matvec_single_witness :
    (Sparse.inner exO exO = 1 ∧ HSwap 0 = 0 ∧ Sparse.inner exO exV = 0) ∧
    (Sparse.projMatvec HSwap [exO] (some 5) exO = (5 : ℤ) • exO ∧
      Sparse.projMatvec HSwap [exO] (some 5) exV =
        HSwap exV - Sparse.inner exO (HSwap exV) • exO) :=
  ⟨⟨by decide, funext fun _ => rfl, by decide⟩,
    Sparse.projected_matvec_single HSwap exO exV (by decide)
      (funext fun _ => rfl) (by decide)⟩

namespace Sparse

variable {n : ℕ} {K : Type} [CommRing K] [StarRing K]

/-- For a list of pairwise orthogonal vectors, the Gram-Schmidt-style sweep
subtracts, in total, the projection on each vector — independent of order. -/
theorem gsPass_eq (l : List (Fin n → K))
    (hl : l.Pairwise fun a b => inner a b = 0 ∧ inner b a = 0)
    (r : Fin n → K) :
    gsPass l r = r - (l.map fun o => inner o r • o).sum := by
  induction l generalizing r with
  | nil => simp [gsPass]
  | cons o os ih =>
    obtain ⟨ho, hos⟩ := List.pairwise_cons.mp hl
    have hstep : gsPass (o :: os) r = gsPass os (r - inner o r • o) := rfl
    rw [hstep, ih hos]
    have hco : os.map (fun o' => inner o' (r - inner o r • o) • o') =
        os.map fun o' => inner o' r • o' := by
      refine List.map_congr_left fun o' ho' => ?_
      rw [inner_sub_right, inner_smul_right, (ho o' ho').2, mul_zero, sub_zero]
    rw [hco, List.map_cons, List.sum_cons, sub_sub]

/-- C7: when the stored `ortho_vecs` are pairwise orthonormal, the result of
`ProjectedTenpyLinearOperator.matvec` is unchanged if the second
orthogonalization pass iterates over `ortho_vecs` in forward order instead of
the implemented reversed order. -/
theorem projected_matvec_order_irrelevant (H : (Fin n → K) → (Fin n → K))
    (l : List (Fin n → K)) (p : Option K) (v : Fin n → K)
    (horth : l.Pairwise fun a b => inner a b = 0 ∧ inner b a = 0)
    (hnorm : ∀ o ∈ l, inner o o = 1) :
    projMatvecForward H l p v = projMatvec H l p v := by
  have hrev : l.reverse.Pairwise fun a b => inner a b = 0 ∧ inner b a = 0 := by
    rw [List.pairwise_reverse]
    exact horth.imp fun h => ⟨h.2, h.1⟩
  have key : ∀ x, gsPass l.reverse x = gsPass l x := by
    intro x
    rw [gsPass_eq l horth, gsPass_eq l.reverse hrev, List.map_reverse,
      List.sum_reverse]
  rcases hfp : firstPass l v with ⟨cs, pv⟩
  simp only [projMatvec, projMatvecForward, hfp, key]

end Sparse

/-- Witness for C7: `[exO, exV]` is a pairwise orthonormal list in `ℤ²`, and
the forward-order and reverse-order variants of the projected matvec agree on
it (original operator `HSwap`, penalty `3`, input `exO + exV`). -/
theorem projected_matvec_order_irrelevant_witness :
    (List.Pairwise (fun a b => Sparse.inner a b = 0 ∧ Sparse.inner b a = 0)
        [exO, exV] ∧
      ∀ o ∈ [exO, exV], Sparse.inner o o = 1) ∧
    Sparse.projMatvecForward HSwap [exO, exV] (some 3) (exO + exV) =
      Sparse.projMatvec HSwap [exO, exV] (some 3) (exO + exV) :=
  ⟨⟨by decide, by decide⟩,
    Sparse.projected_matvec_order_irrelevant HSwap [exO, exV] (some 3)
      (exO + exV) (by decide) (by decide)⟩

namespace BackendFactory

/-- The backend classes named in `_backend_lookup` of `backend_factory.py`. -/
inductive BackendCls where
  | NoSymmetryNumpyBackend
  | AbelianNumpyBackend
  | NoSymmetryTorchBackend
  | AbelianTorchBackend
deriving DecidableEq, Repr

/-- Backend-specific constructor keyword options, e.g. `dict(device='cuda')`. -/
abbrev KwArgs := List (String × String)

/-- The part of a `Symmetry` instance that `get_backend` inspects: whether it
compares equal to the `no_symmetry` singleton, and its `is_abelian` flag. -/
structure MSymmetry where
  eqNoSymmetry : Bool
  isAbelian : Bool
deriving DecidableEq

/-- The `no_symmetry=dict(...)` row of `_backend_lookup`.  The outer `Option`
is dictionary membership (missing key → `KeyError`); the inner `Option` is the
stored value, where Python `None` marks an unimplemented combination. -/
def lookupNoSymmetry : String → Option (Option (BackendCls × KwArgs))
  | "numpy" => some (some (.NoSymmetryNumpyBackend, []))
  | "torch" => some (some (.NoSymmetryTorchBackend, []))
  | "tensorflow" => some none
  | "jax" => some none
  | "cpu" => some (some (.NoSymmetryNumpyBackend, []))
  | "gpu" => some (some (.NoSymmetryTorchBackend, [("device", "cuda")]))
  | "tpu" => some none
  | _ => none

/-- The `abelian=dict(...)` row of `_backend_lookup`. -/
def lookupAbelian : String → Option (Option (BackendCls × KwArgs))
  | "numpy" => some (some (.AbelianNumpyBackend, []))
  | "torch" => some (some (.AbelianTorchBackend, []))
  | "tensorflow" => some none
  | "jax" => some none
  | "cpu" => some (some (.AbelianNumpyBackend, []))
  | "gpu" => some (some (.AbelianTorchBackend, [("device", "cuda")]))
  | "tpu" => some none
  | _ => none

/-- The `non_abelian=dict(...)` row of `_backend_lookup`: every entry is
Python `None` (`FUTURE`). -/
def lookupNonAbelian : String → Option (Option (BackendCls × KwArgs))
  | "numpy" => some none
  | "torch" => some none
  | "tensorflow" => some none
  | "jax" => some none
  | "cpu" => some none
  | "gpu" => some none
  | "tpu" => some none
  | _ => none

/-- `_backend_lookup` from `backend_factory.py`: note that its keys are
`no_symmetry`, `abelian` and `non_abelian` (with an underscore). -/
def backend_lookup : String → Option (String → Option (Option (BackendCls × KwArgs)))
  | "no_symmetry" => some lookupNoSymmetry
  | "abelian" => some lookupAbelian
  | "non_abelian" => some lookupNonAbelian
  | _ => none

/-- The cache key type of `_instantiated_backends`:
`(symmetry_backend, block_backend, tuple(kwargs.items()))`. -/
abbrev BKey := String × String × KwArgs

/-- The process-wide `_instantiated_backends` dict, modelled as an
association list together with a counter that tags each constructed backend
instance with a distinct identity. -/
structure BackendCache where
  entries : List (BKey × ℕ)
  nextId : ℕ
deriving DecidableEq

def emptyCache : BackendCache := ⟨[], 0⟩

def cacheLookup (key : BKey) : List (BKey × ℕ) → Option ℕ
  | [] => none
  | (k, v) :: rest => if k = key then some v else cacheLookup key rest

/-- The auto-selection of the symmetry-backend kind in `get_backend`:
`'no_symmetry'` when the symmetry equals `no_symmetry`, `'abelian'` when it is
abelian, `'nonabelian'` otherwise; an explicit argument overrides it. -/
def resolve_symmetry_backend (sym : MSymmetry) : Option String → String
  | some s => s
  | none =>
    if sym.eqNoSymmetry then "no_symmetry"
    else if sym.isAbelian then "abelian"
    else "nonabelian"

/-- `get_backend` from `backend_factory.py`, with the module-level
`_instantiated_backends` dict passed as explicit state.  A returned backend
instance is `(class, kwargs, identity)`; the second component of the result
is the updated cache. -/
def get_backend (sym : MSymmetry) (block_backend : String)
    (symmetry_backend : Option String) (cache : BackendCache) :
    Except PyExc ((BackendCls × KwArgs × ℕ) × BackendCache) :=
  if block_backend ∉ ["numpy", "torch", "tensorflow", "jax", "cpu", "gpu", "tpu"] then
    .error .assertionError
  else
    let sb := resolve_symmetry_backend sym symmetry_backend
    if sb ∉ ["no_symmetry", "abelian", "nonabelian"] then .error .assertionError
    else
      match backend_lookup sb with
      | none => .error .keyError
      | some row =>
        match row block_backend with
        | none => .error .keyError
        | some none => .error .notImplementedError
        | some (some (cls, kwargs)) =>
          let key : BKey := (sb, block_backend, kwargs)
          match cacheLookup key cache.entries with
          | some inst => .ok ((cls, kwargs, inst), cache)
          | none =>
            .ok ((cls, kwargs, cache.nextId),
              ⟨(key, cache.nextId) :: cache.entries, cache.nextId + 1⟩)

end BackendFactory

/-- C4: auto-selection of the symmetry-backend kind works as specified, and
unimplemented `(kind, block backend)` combinations of the `no_symmetry` and
`abelian` rows signal `NotImplementedError` — but every nonabelian dispatch
signals `KeyError` instead of the intended `NotImplementedError`: the
auto-selected kind string is `'nonabelian'` while the lookup-table key is
`'non_abelian'`, so `_backend_lookup[symmetry_backend]` fails. -/
theorem get_backend_nonabelian_keyerror :
    (BackendFactory.resolve_symmetry_backend ⟨true, true⟩ none = "no_symmetry" ∧
      BackendFactory.resolve_symmetry_backend ⟨false, true⟩ none = "abelian" ∧
      BackendFactory.resolve_symmetry_backend ⟨false, false⟩ none = "nonabelian") ∧
    (BackendFactory.get_backend ⟨false, false⟩ "numpy" none
        BackendFactory.emptyCache = .error .keyError ∧
      BackendFactory.get_backend ⟨false, true⟩ "numpy" (some "nonabelian")
        BackendFactory.emptyCache = .error .keyError) ∧
    (BackendFactory.get_backend ⟨true, true⟩ "tensorflow" none
        BackendFactory.emptyCache = .error .notImplementedError ∧
      BackendFactory.get_backend ⟨true, true⟩ "jax" none
        BackendFactory.emptyCache = .error .notImplementedError ∧
      BackendFactory.get_backend ⟨true, true⟩ "tpu" none
        BackendFactory.emptyCache = .error .notImplementedError ∧
      BackendFactory.get_backend ⟨false, true⟩ "tensorflow" none
        BackendFactory.emptyCache = .error .notImplementedError) :=
  ⟨⟨rfl, rfl, rfl⟩, ⟨rfl, rfl⟩, rfl, rfl, rfl, rfl⟩

namespace BackendFactory

theorem cacheLookup_none_not_mem (key : BKey) :
    ∀ l : List (BKey × ℕ), cacheLookup key l = none → key ∉ l.map Prod.fst
  | [], _ => by simp
  | (k, v) :: rest, h => by
    by_cases hk : k = key
    · simp [cacheLookup, hk] at h
    · simp only [cacheLookup, if_neg hk] at h
      simpa [Ne.symm hk] using cacheLookup_none_not_mem key rest h

/-- C5: two `get_backend` calls resolving to the same cache key share one
backend instance.  If a first call succeeds returning instance `r` and cache
`c'`, then a second call whose symmetry-backend kind resolves to the same
string (with the same block-backend name, hence the same kwargs and the same
key) returns exactly the same instance and leaves the cache unchanged;
moreover key-uniqueness of the cache is preserved, so at most one instance
exists per key. -/
theorem get_backend_cached (sym sym' : MSymmetry) (bb : String)
    (sb sb' : Option String) (cache : BackendCache)
    (r : BackendCls × KwArgs × ℕ) (c' : BackendCache)
    (hres : resolve_symmetry_backend sym' sb' = resolve_symmetry_backend sym sb)
    (h1 : get_backend sym bb sb cache = .ok (r, c')) :
    get_backend sym' bb sb' c' = .ok (r, c') ∧
    ((cache.entries.map Prod.fst).Nodup → (c'.entries.map Prod.fst).Nodup) := by
  simp only [get_backend, hres] at h1 ⊢
  split at h1
  · exact absurd h1 (by simp)
  · split at h1
    · exact absurd h1 (by simp)
    · rename_i hbb hsb
      simp only [if_neg hbb, if_neg hsb]
      split at h1
      · exact absurd h1 (by simp)
      · rename_i row hrow
        split at h1
        · exact absurd h1 (by simp)
        · exact absurd h1 (by simp)
        · rename_i cls kwargs hentry
          split at h1
          · rename_i inst hlk
            obtain ⟨rfl, rfl⟩ : r = (cls, kwargs, inst) ∧ c' = cache := by
              cases h1; exact ⟨rfl, rfl⟩
            exact ⟨by simp [hlk], id⟩
          · rename_i hlk
            obtain ⟨rfl, rfl⟩ :
                r = (cls, kwargs, cache.nextId) ∧
                  c' = ⟨((resolve_symmetry_backend sym sb, bb, kwargs),
                      cache.nextId) :: cache.entries, cache.nextId + 1⟩ := by
              cases h1; exact ⟨rfl, rfl⟩
            refine ⟨by simp [cacheLookup], fun hnd => ?_⟩
            simpa [List.nodup_cons, hnd] using
              cacheLookup_none_not_mem _ _ hlk

end BackendFactory

/-- Witness for C5: a first call constructs and caches instance `0` for key
`("no_symmetry", "numpy", [])`; a second call with a different (but still
trivial) symmetry object resolving to the same key returns the very same
instance and leaves the cache unchanged. -/
theorem get_backend_cached_witness :
    (BackendFactory.resolve_symmetry_backend ⟨true, false⟩ none =
        BackendFactory.resolve_symmetry_backend ⟨true, true⟩ none ∧
      BackendFactory.get_backend ⟨true, true⟩ "numpy" none
          BackendFactory.emptyCache =
        .ok ((.NoSymmetryNumpyBackend, [], 0),
          ⟨[(("no_symmetry", "numpy", []), 0)], 1⟩)) ∧
    (BackendFactory.get_backend ⟨true, false⟩ "numpy" none
        ⟨[(("no_symmetry", "numpy", []), 0)], 1⟩ =
      .ok ((.NoSymmetryNumpyBackend, [], 0),
        ⟨[(("no_symmetry", "numpy", []), 0)], 1⟩) ∧
      ((BackendFactory.emptyCache.entries.map Prod.fst).Nodup →
        ((BackendFactory.BackendCache.mk
            [(("no_symmetry", "numpy", []), 0)] 1).entries.map Prod.fst).Nodup)) :=
  ⟨⟨rfl, rfl⟩,
    BackendFactory.get_backend_cached ⟨true, true⟩ ⟨true, false⟩ "numpy"
      none none BackendFactory.emptyCache (.NoSymmetryNumpyBackend, [], 0)
      ⟨[(("no_symmetry", "numpy", []), 0)], 1⟩ rfl rfl⟩

namespace NumpyBackend

/-- A numpy block (dense multi-dimensional array): a shape together with its
entries, addressed by multi-index in C (row-major) order.  Entries are only
meaningful at valid indices (`validIdx`). -/
structure NDArr (α : Type) where
  shape : List ℕ
  data : List ℕ → α

/-- A multi-index is valid for a shape when it has one coordinate per axis,
each strictly below that axis' extent. -/
def validIdx : List ℕ → List ℕ → Bool
  | [], [] => true
  | i :: idx, s :: sh => decide (i < s) && validIdx idx sh
  | _, _ => false

/-- Row-major (C order) linear position of a multi-index within a shape. -/
def flatIdx : List ℕ → List ℕ → ℕ
  | s :: sh, i :: idx => i * sh.prod + flatIdx sh idx
  | _, _ => 0

/-- Multi-index of the given row-major linear position within a shape. -/
def unflatIdx : List ℕ → ℕ → List ℕ
  | [], _ => []
  | _ :: sh, m => m / sh.prod :: unflatIdx sh (m % sh.prod)

/-- Modelled from the spec: `inverse_permutation` (from `linalg/misc.py`,
not among the given sources, used by `block_dematrixify`) returns the inverse
of a permutation `p` of `0..len(p)-1`, i.e. `np.argsort(p)`: position `j`
holds the index at which `j` occurs in `p`. -/
def inverse_permutation (p : List ℕ) : List ℕ :=
  (List.range p.length).map fun j => p.indexOf j

/-- `np.transpose(a, axes)`: axis `k` of the result is axis `axes[k]` of `a`,
so the entry of the result at `idx` is the entry of `a` at the multi-index
whose coordinate on axis `j` is `idx[position of j in axes]`. -/
def np_transpose {α : Type} (a : NDArr α) (axes : List ℕ) : NDArr α :=
  ⟨axes.map fun j => a.shape.getD j 0,
    fun idx => a.data ((inverse_permutation axes).map fun k => idx.getD k 0)⟩

/-- `np.reshape(a, sh)` in C order: the entry of the result at `idx` is the
entry of `a` at the multi-index with the same row-major linear position. -/
def np_reshape {α : Type} (a : NDArr α) (sh : List ℕ) : NDArr α :=
  ⟨sh, fun idx => a.data (unflatIdx a.shape (flatIdx sh idx))⟩

/-- `NumpyBlockBackend.block_matrixify` from `backends/numpy.py`: transpose
by `idcs1 + idcs2`, then reshape to the 2-D matrix shape whose extents are
the products of the first `len(idcs1)` and the remaining transposed extents;
the auxiliary data is `(permutation, a_shape)`. -/
def block_matrixify {α : Type} (a : NDArr α) (idcs1 idcs2 : List ℕ) :
    NDArr α × (List ℕ × List ℕ) :=
  let permutation := idcs1 ++ idcs2
  let t := np_transpose a permutation
  let a_shape := t.shape
  let matrix_shape :=
    [(a_shape.take idcs1.length).prod, (a_shape.drop idcs1.length).prod]
  (np_reshape t matrix_shape, (permutation, a_shape))

/-- `NumpyBlockBackend.block_dematrixify` from `backends/numpy.py`: reshape
the matrix back to `a_shape` and transpose by `inverse_permutation(permutation)`. -/
def block_dematrixify {α : Type} (matrix : NDArr α) (aux : List ℕ × List ℕ) :
    NDArr α :=
  np_transpose (np_reshape matrix aux.2) (inverse_permutation aux.1)

/-- Equality of numpy blocks: same shape and same entries at every valid
multi-index. -/
def NDEquiv {α : Type} (a b : NDArr α) : Prop :=
  a.shape = b.shape ∧ ∀ idx, validIdx idx b.shape = true → a.data idx = b.data idx

theorem validIdx_length : ∀ {idx sh : List ℕ}, validIdx idx sh = true →
    idx.length = sh.length
  | [], [], _ => rfl
  | [], _ :: _, h => by simp [validIdx] at h
  | _ :: _, [], h => by simp [validIdx] at h
  | _ :: idx, _ :: sh, h => by
    simp only [validIdx, Bool.and_eq_true, decide_eq_true_eq] at h
    simp [validIdx_length h.2]

theorem validIdx_getD : ∀ {idx sh : List ℕ}, validIdx idx sh = true →
    ∀ k < sh.length, idx.getD k 0 < sh.getD k 0
  | [], [], _ => by simp
  | [], _ :: _, h => by simp [validIdx] at h
  | _ :: _, [], h => by simp [validIdx] at h
  | i :: idx, s :: sh, h => by
    simp only [validIdx, Bool.and_eq_true, decide_eq_true_eq] at h
    intro k hk
    match k with
    | 0 => simpa using h.1
    | k + 1 => simpa using validIdx_getD h.2 k (by simpa using hk)

theorem validIdx_map {l : List ℕ} {g f : ℕ → ℕ} (h : ∀ k ∈ l, g k < f k) :
    validIdx (l.map g) (l.map f) = true := by
  induction l with
  | nil => rfl
  | cons k l ih =>
    simp only [List.map_cons, validIdx, Bool.and_eq_true, decide_eq_true_eq]
    exact ⟨h k (by simp), ih fun k' hk' => h k' (by simp [hk'])⟩

theorem flatIdx_lt : ∀ {idx sh : List ℕ}, validIdx idx sh = true →
    flatIdx sh idx < sh.prod
  | [], [], _ => by simp [flatIdx]
  | [], _ :: _, h => by simp [validIdx] at h
  | _ :: _, [], h => by simp [validIdx] at h
  | i :: idx, s :: sh, h => by
    simp only [validIdx, Bool.and_eq_true, decide_eq_true_eq] at h
    have hr := flatIdx_lt h.2
    calc flatIdx (s :: sh) (i :: idx) = i * sh.prod + flatIdx sh idx := rfl
      _ < (i + 1) * sh.prod := by rw [add_one_mul]; omega
      _ ≤ s * sh.prod := Nat.mul_le_mul_right _ (by omega)
      _ = (s :: sh).prod := by simp

theorem unflatIdx_flatIdx : ∀ {idx sh : List ℕ}, validIdx idx sh = true →
    unflatIdx sh (flatIdx sh idx) = idx
  | [], [], _ => rfl
  | [], _ :: _, h => by simp [validIdx] at h
  | _ :: _, [], h => by simp [validIdx] at h
  | i :: idx, s :: sh, h => by
    simp only [validIdx, Bool.and_eq_true, decide_eq_true_eq] at h
    have hr := flatIdx_lt h.2
    have hP : 0 < sh.prod := by omega
    have h1 : flatIdx (s :: sh) (i :: idx) = flatIdx sh idx + i * sh.prod := by
      simp [flatIdx]; omega
    simp only [unflatIdx, h1]
    rw [Nat.add_mul_div_right _ _ hP, Nat.div_eq_of_lt hr, zero_add,
      Nat.add_mul_mod_self_right, Nat.mod_eq_of_lt hr,
      unflatIdx_flatIdx h.2]

theorem flatIdx_unflatIdx : ∀ (sh : List ℕ) {m : ℕ}, m < sh.prod →
    flatIdx sh (unflatIdx sh m) = m
  | [], m, hm => by
    have h0 : m = 0 := by simp only [List.prod_nil] at hm; omega
    subst h0
    rfl
  | s :: sh, m, hm => by
    rcases Nat.eq_zero_or_pos sh.prod with hP | hP
    · rw [List.prod_cons, hP, Nat.mul_zero] at hm
      omega
    · have hmod : m % sh.prod < sh.prod := Nat.mod_lt _ hP
      simp only [unflatIdx, flatIdx]
      rw [flatIdx_unflatIdx sh hmod, Nat.mul_comm (m / sh.prod) sh.prod,
        Nat.div_add_mod]

theorem inverse_permutation_length (p : List ℕ) :
    (inverse_permutation p).length = p.length := by
  simp [inverse_permutation]

theorem inverse_permutation_getElem (p : List ℕ) (j : ℕ) (hj : j < p.length) :
    getElem (inverse_permutation p) j (by simpa [inverse_permutation] using hj) =
      p.indexOf j := by
  simp [inverse_permutation]

theorem inverse_permutation_getD (p : List ℕ) (j : ℕ) (hj : j < p.length) :
    (inverse_permutation p).getD j 0 = p.indexOf j := by
  rw [List.getD_eq_getElem _ _ (by simpa [inverse_permutation_length] using hj),
    inverse_permutation_getElem p j hj]

theorem perm_mem_iff {p : List ℕ} {n : ℕ} (hp : p.Perm (List.range n))
    {j : ℕ} : j ∈ p ↔ j < n := by
  rw [hp.mem_iff, List.mem_range]

theorem perm_getElem_lt {p : List ℕ} {n : ℕ} (hp : p.Perm (List.range n))
    {k : ℕ} (hk : k < p.length) : getElem p k hk < n :=
  (perm_mem_iff hp).mp (List.getElem_mem hk)

theorem perm_indexOf_lt {p : List ℕ} {n : ℕ} (hp : p.Perm (List.range n))
    {j : ℕ} (hj : j < n) : p.indexOf j < p.length :=
  List.indexOf_lt_length.mpr ((perm_mem_iff hp).mpr hj)

theorem perm_getElem_indexOf {p : List ℕ} {n : ℕ} (hp : p.Perm (List.range n))
    {j : ℕ} (hj : j < n) :
    getElem p (p.indexOf j) (perm_indexOf_lt hp hj) = j :=
  List.getElem_indexOf _

theorem perm_indexOf_getElem {p : List ℕ} {n : ℕ} (hp : p.Perm (List.range n))
    {k : ℕ} (hk : k < p.length) : p.indexOf (getElem p k hk) = k :=
  List.indexOf_getElem (hp.nodup_iff.mpr (List.nodup_range n)) k hk

theorem inverse_permutation_nodup {p : List ℕ} {n : ℕ}
    (hp : p.Perm (List.range n)) : (inverse_permutation p).Nodup := by
  refine List.Nodup.map_on ?_ (List.nodup_range p.length)
  intro x hx y hy hxy
  have hlen : p.length = n := hp.length_eq.trans (List.length_range n)
  rw [List.mem_range] at hx hy
  have h1 := perm_getElem_indexOf hp (n := n) (j := x) (by omega)
  have h2 := perm_getElem_indexOf hp (n := n) (j := y) (by omega)
  rw [← h1, ← h2]
  congr 1

theorem inverse_permutation_invol {p : List ℕ} {n : ℕ}
    (hp : p.Perm (List.range n)) :
    inverse_permutation (inverse_permutation p) = p := by
  have hlen : p.length = n := hp.length_eq.trans (List.length_range n)
  refine List.ext_getElem (by simp [inverse_permutation_length]) ?_
  intro t ht1 ht2
  rw [inverse_permutation_length, inverse_permutation_length] at ht1
  rw [inverse_permutation_getElem (inverse_permutation p) t
    (by simpa [inverse_permutation_length] using ht1)]
  have hptn : getElem p t ht2 < n := perm_getElem_lt hp ht2
  have hpti : getElem p t ht2 < (inverse_permutation p).length := by
    simpa [inverse_permutation_length, hlen] using hptn
  have hval : getElem (inverse_permutation p) (getElem p t ht2) hpti = t := by
    rw [inverse_permutation_getElem p (getElem p t ht2) (by simpa [hlen] using hptn)]
    exact perm_indexOf_getElem hp ht2
  conv_lhs => rw [← hval]
  exact List.indexOf_getElem (inverse_permutation_nodup hp) _ hpti

theorem getD_map_getElem (l : List ℕ) (f : ℕ → ℕ) (k : ℕ) (hk : k < l.length) :
    (l.map f).getD k 0 = f (getElem l k hk) := by
  rw [List.getD_eq_getElem _ _ (by simpa using hk), List.getElem_map]

theorem block_roundtrip_unfold {α : Type} (a : NDArr α) (idcs1 idcs2 : List ℕ) :
    block_dematrixify (block_matrixify a idcs1 idcs2).1
        (block_matrixify a idcs1 idcs2).2 =
      np_transpose (np_reshape (np_reshape (np_transpose a (idcs1 ++ idcs2))
          [(((idcs1 ++ idcs2).map fun j => a.shape.getD j 0).take
              idcs1.length).prod,
            (((idcs1 ++ idcs2).map fun j => a.shape.getD j 0).drop
              idcs1.length).prod])
          ((idcs1 ++ idcs2).map fun j => a.shape.getD j 0))
        (inverse_permutation (idcs1 ++ idcs2)) := rfl

/-- C6: for every numpy block `a` and every partition of its axes into two
lists `idcs1`, `idcs2` that together form a permutation of all axes,
`block_dematrixify(block_matrixify(a, idcs1, idcs2))` returns a block equal
to the original `a` (same shape and same entry at every valid multi-index):
the auxiliary data `(permutation, a_shape)` suffices to restore the original
shape and axis order. -/
theorem block_matrixify_dematrixify_roundtrip {α : Type} (a : NDArr α)
    (idcs1 idcs2 : List ℕ)
    (hp : (idcs1 ++ idcs2).Perm (List.range a.shape.length)) :
    NDEquiv (block_dematrixify (block_matrixify a idcs1 idcs2).1
      (block_matrixify a idcs1 idcs2).2) a := by
  rw [block_roundtrip_unfold]
  have hlen : (idcs1 ++ idcs2).length = a.shape.length :=
    hp.length_eq.trans (List.length_range _)
  constructor
  · -- shapes agree
    show ((inverse_permutation (idcs1 ++ idcs2)).map fun j =>
        ((idcs1 ++ idcs2).map fun j => a.shape.getD j 0).getD j 0) = a.shape
    refine List.ext_getElem (by simp [inverse_permutation_length, hlen]) ?_
    intro t ht1 ht2
    have htn : t < a.shape.length := ht2
    rw [List.getElem_map,
      inverse_permutation_getElem (idcs1 ++ idcs2) t (by omega),
      getD_map_getElem _ _ _ (perm_indexOf_lt hp htn),
      perm_getElem_indexOf hp htn]
    exact List.getD_eq_getElem _ _ ht2
  · -- entries agree at every valid index
    intro idx hval
    have hvlen : idx.length = a.shape.length := validIdx_length hval
    show a.data ((inverse_permutation (idcs1 ++ idcs2)).map fun k =>
        (unflatIdx ((idcs1 ++ idcs2).map fun j => a.shape.getD j 0)
          (flatIdx [((((idcs1 ++ idcs2).map fun j => a.shape.getD j 0)).take
              idcs1.length).prod,
            ((((idcs1 ++ idcs2).map fun j => a.shape.getD j 0)).drop
              idcs1.length).prod]
            (unflatIdx [((((idcs1 ++ idcs2).map fun j =>
                a.shape.getD j 0)).take idcs1.length).prod,
              ((((idcs1 ++ idcs2).map fun j => a.shape.getD j 0)).drop
                idcs1.length).prod]
              (flatIdx ((idcs1 ++ idcs2).map fun j => a.shape.getD j 0)
                ((inverse_permutation (inverse_permutation (idcs1 ++ idcs2))).map
                  fun k => idx.getD k 0))))).getD k 0) = a.data idx
    rw [inverse_permutation_invol hp]
    have hvj : validIdx ((idcs1 ++ idcs2).map fun k => idx.getD k 0)
        ((idcs1 ++ idcs2).map fun j => a.shape.getD j 0) = true := by
      refine validIdx_map fun k hk => ?_
      exact validIdx_getD hval k ((perm_mem_iff hp).mp hk)
    have hmshprod :
        ([((((idcs1 ++ idcs2).map fun j => a.shape.getD j 0)).take
            idcs1.length).prod,
          ((((idcs1 ++ idcs2).map fun j => a.shape.getD j 0)).drop
            idcs1.length).prod] : List ℕ).prod =
          (((idcs1 ++ idcs2)).map fun j => a.shape.getD j 0).prod := by
      rw [List.prod_cons, List.prod_cons, List.prod_nil, mul_one,
        ← List.prod_append, List.take_append_drop]
    have hflt := flatIdx_lt hvj
    rw [flatIdx_unflatIdx _ (by omega), unflatIdx_flatIdx hvj]
    refine congrArg a.data ?_
    refine List.ext_getElem
      (by simp [inverse_permutation_length, hlen, hvlen]) ?_
    intro t ht1 ht2
    have htn : t < a.shape.length := by omega
    rw [List.getElem_map,
      inverse_permutation_getElem (idcs1 ++ idcs2) t (by omega),
      getD_map_getElem _ _ _ (perm_indexOf_lt hp htn),
      perm_getElem_indexOf hp htn]
    exact List.getD_eq_getElem _ _ ht2

end NumpyBackend

/-- A concrete 2x3 block with distinguishable entries. -/
def exArr : NumpyBackend.NDArr ℕ :=
  ⟨[2, 3], fun idx => 10 * idx.getD 0 0 + idx.getD 1 0⟩

/-- Witness for C6: on the concrete 2x3 block, with the axis partition
`idcs1 = [1]`, `idcs2 = [0]`, dematrixify inverts matrixify. -/
theorem block_matrixify_dematrixify_roundtrip_witness :
    (([1] ++ [0] : List ℕ).Perm (List.range exArr.shape.length)) ∧
    NumpyBackend.NDEquiv
      (NumpyBackend.block_dematrixify
        (NumpyBackend.block_matrixify exArr [1] [0]).1
        (NumpyBackend.block_matrixify exArr [1] [0]).2) exArr :=
  ⟨by decide,
    NumpyBackend.block_matrixify_dematrixify_roundtrip exArr [1] [0] (by decide)⟩
